import Mathlib

set_option autoImplicit false

/-
Verification of the CSV reconciliation tool (ReconciliationTool.jsx).

The embedding models the two pure cores of the component:
  * the per-row normalization inside handleFileUpload's parse callback, and
  * the matching algorithm inside performReconciliation,
together with the component state they update.  JavaScript numbers are
modelled as exact rationals extended with a NaN element (the comparisons in
the source only involve subtraction, Math.abs and a strict `>`, for which
NaN handling is the only IEEE behaviour the claims depend on).  JS string
builtins (trim, toLowerCase, String coercion) and parseFloat are modelled
explicitly below.
-/

namespace Reconciliation

/-- A JavaScript numeric value: an exact rational (idealising IEEE doubles)
or the distinguished not-a-number value produced by failed parses. -/
inductive JNum where
  | num : ℚ → JNum
  | nan : JNum
deriving DecidableEq, Repr

namespace JNum

/-- Subtraction; NaN propagates as in JavaScript. -/
def sub : JNum → JNum → JNum
  | num a, num b => num (a - b)
  | _, _ => nan

/-- Math.abs; NaN propagates. -/
def jabs : JNum → JNum
  | num a => num |a|
  | nan => nan

/-- The strict `>` comparison; every comparison involving NaN is false. -/
def gtb : JNum → JNum → Bool
  | num a, num b => decide (b < a)
  | _, _ => false

/-- Models the JS String() coercion on numbers.  The digit rendering of
non-integer values is abstracted by the rational repr; no claim depends on
the digit sequence of a stringified number. -/
def render : JNum → String
  | nan => ("NaN")
  | num q => toString q

end JNum

/-- A raw CSV cell value as delivered by Papa.parse with dynamicTyping:
null/absent, a string, or a number (numeric-looking cells arrive
pre-converted to numbers). -/
inductive RawVal where
  | vnull : RawVal
  | vstr : String → RawVal
  | vnum : JNum → RawVal
deriving DecidableEq, Repr

/-- JavaScript truthiness of a raw cell value: null, the empty string,
numeric zero and NaN are falsy; everything else is truthy. -/
def RawVal.truthy : RawVal → Bool
  | .vnull => false
  | .vstr s => decide (s ≠ (""))
  | .vnum (.num q) => decide (q ≠ 0)
  | .vnum .nan => false

/-- Models the JS String() coercion on a raw cell value. -/
def RawVal.jsString : RawVal → String
  | .vnull => ("null")
  | .vstr s => s
  | .vnum n => n.render

/-- JavaScript `v || d`: the left operand when truthy, otherwise the right. -/
def jsOr (v d : RawVal) : RawVal :=
  if v.truthy then v else d

/-- Models the JS String.prototype.trim builtin: strip whitespace from both
ends. -/
def jsTrim (s : String) : String :=
  String.mk (((s.toList.dropWhile Char.isWhitespace).reverse.dropWhile
    Char.isWhitespace).reverse)

/-- Models the JS String.prototype.toLowerCase builtin (ASCII). -/
def jsToLower (s : String) : String :=
  String.mk (s.toList.map Char.toLower)

/-- Numeric value of a digit run. -/
def digitsVal (ds : List Char) : ℕ :=
  ds.foldl (fun n c => 10 * n + (c.toNat - 48)) 0

/-- Models the JS parseFloat builtin on decimal literals: skip leading
whitespace, optional sign, a longest digit run, an optional fraction after a
dot; NaN when no digits are found at the front.  (Exponents and the special
Infinity literals are outside every claim.) -/
def parseFloatChars (cs : List Char) : JNum :=
  let cs1 := cs.dropWhile Char.isWhitespace
  let signed : ℚ × List Char :=
    match cs1 with
    | '-' :: rest => (-1, rest)
    | '+' :: rest => (1, rest)
    | _ => (1, cs1)
  let ds := signed.2.takeWhile Char.isDigit
  let cs2 := signed.2.dropWhile Char.isDigit
  let fs :=
    match cs2 with
    | '.' :: rest => rest.takeWhile Char.isDigit
    | _ => []
  if ds.isEmpty && fs.isEmpty then JNum.nan
  else JNum.num (signed.1 * ((digitsVal ds : ℚ) + (digitsVal fs : ℚ) / (10 : ℚ) ^ fs.length))

/-- Models JS parseFloat applied to a raw cell value (numbers round-trip
through their string form unchanged; null coerces to the string "null",
which parses to NaN). -/
def parseFloat : RawVal → JNum
  | .vstr s => parseFloatChars s.toList
  | .vnum n => n
  | .vnull => JNum.nan

/-- A normalized record as produced by handleFileUpload's processing step:
the three canonical fields plus the pass-through columns. -/
structure NormalizedRecord where
  transaction_reference : String
  amount : Option JNum
  status : Option String
  extra : List (String × RawVal)
deriving DecidableEq, Repr

/-- A raw parsed CSV row: the three cells the normalizer touches, plus the
remaining pass-through columns. -/
structure RawRow where
  transaction_reference : RawVal
  amount : RawVal
  status : RawVal
  extra : List (String × RawVal)
deriving DecidableEq, Repr

/-- Per-row normalization from handleFileUpload:
`transaction_reference: String(row.transaction_reference || '').trim()`,
`amount: row.amount ? parseFloat(row.amount) : null`,
`status: row.status ? String(row.status).toLowerCase().trim() : null`;
all other columns are retained unchanged. -/
def normalizeRow (row : RawRow) : NormalizedRecord :=
  { transaction_reference :=
      jsTrim (RawVal.jsString (jsOr row.transaction_reference (RawVal.vstr ("")))),
    amount := if row.amount.truthy then some (parseFloat row.amount) else none,
    status :=
      if row.status.truthy then some (jsTrim (jsToLower row.status.jsString)) else none,
    extra := row.extra }

/-- Batch processing step of the parse callback: normalize every row, then
drop rows whose reference became empty (the truthiness filter). -/
def processRows (rows : List RawRow) : List NormalizedRecord :=
  (rows.map normalizeRow).filter (fun r => r.transaction_reference ≠ (""))

/-- The JS Map from references to records, as an insertion-ordered
association list. -/
abbrev RecMap := List (String × NormalizedRecord)

/-- JS Map.prototype.set: overwrite in place when the key already exists,
otherwise append the new entry. -/
def mapSet (m : RecMap) (k : String) (v : NormalizedRecord) : RecMap :=
  if m.any (fun p => decide (p.1 = k)) then
    m.map (fun p => if p.1 = k then (k, v) else p)
  else m ++ [(k, v)]

/-- JS Map.prototype.get. -/
def mapGet (m : RecMap) (k : String) : Option NormalizedRecord :=
  (m.find? (fun p => decide (p.1 = k))).map (fun p => p.2)

/-- JS Map.prototype.has. -/
def mapHas (m : RecMap) (k : String) : Bool :=
  m.any (fun p => decide (p.1 = k))

/-- Loop building a side's lookup map: forEach over the records, setting
each one under its reference key. -/
def buildMap (records : List NormalizedRecord) : RecMap :=
  records.foldl (fun m r => mapSet m r.transaction_reference r) []

/-- A matched pair together with its two comparison flags. -/
structure MatchResult where
  transaction_reference : String
  internal : NormalizedRecord
  provider : NormalizedRecord
  amountMatch : Bool
  statusMatch : Bool
deriving DecidableEq, Repr

/-- Truthiness of a nullable string: null and the empty string are falsy. -/
def strTruthy : Option String → Bool
  | none => false
  | some s => decide (s ≠ (""))

/-- The match result built in the classification loop, with both checks
applied: the amount flag drops to false when both amounts are non-null and
`Math.abs(a - b) > 0.01`; the status flag drops to false when both statuses
are truthy and unequal. -/
def mkMatchResult (internalRecord providerRecord : NormalizedRecord) : MatchResult :=
  { transaction_reference := internalRecord.transaction_reference,
    internal := internalRecord,
    provider := providerRecord,
    amountMatch :=
      match internalRecord.amount, providerRecord.amount with
      | some a, some b => ! (JNum.jabs (JNum.sub a b)).gtb (JNum.num (1 / 100))
      | _, _ => true,
    statusMatch :=
      if strTruthy internalRecord.status && strTruthy providerRecord.status then
        decide (internalRecord.status = providerRecord.status)
      else true }

/-- The summary block of a reconciliation result. -/
structure Summary where
  totalInternal : ℕ
  totalProvider : ℕ
  matchedCount : ℕ
  internalOnlyCount : ℕ
  providerOnlyCount : ℕ
  amountMismatchCount : ℕ
  statusMismatchCount : ℕ
deriving DecidableEq, Repr

/-- The full result object assembled by performReconciliation. -/
structure ReconciliationResult where
  matched : List MatchResult
  internalOnly : List NormalizedRecord
  providerOnly : List NormalizedRecord
  amountMismatches : List MatchResult
  statusMismatches : List MatchResult
  summary : Summary
deriving DecidableEq, Repr

/-- The classification loop over internal records, in input order: matched
pairs on the left, internal-only records on the right. -/
def classifyInternal (pmap : RecMap) :
    List NormalizedRecord → List MatchResult × List NormalizedRecord
  | [] => ([], [])
  | r :: rest =>
    let acc := classifyInternal pmap rest
    match mapGet pmap r.transaction_reference with
    | some p => (mkMatchResult r p :: acc.1, acc.2)
    | none => (acc.1, r :: acc.2)

/-- The pure core of performReconciliation.  The mismatch lists collect, in
matched order, exactly the matched entries whose corresponding flag was
dropped to false. -/
def reconcile (internalData providerData : List NormalizedRecord) : ReconciliationResult :=
  let internalMap := buildMap internalData
  let providerMap := buildMap providerData
  let cls := classifyInternal providerMap internalData
  let matched := cls.1
  let internalOnly := cls.2
  let providerOnly :=
    providerData.filter (fun r => ! mapHas internalMap r.transaction_reference)
  let amountMismatches := matched.filter (fun m => ! m.amountMatch)
  let statusMismatches := matched.filter (fun m => ! m.statusMatch)
  { matched := matched,
    internalOnly := internalOnly,
    providerOnly := providerOnly,
    amountMismatches := amountMismatches,
    statusMismatches := statusMismatches,
    summary :=
      { totalInternal := internalData.length,
        totalProvider := providerData.length,
        matchedCount := matched.length,
        internalOnlyCount := internalOnly.length,
        providerOnlyCount := providerOnly.length,
        amountMismatchCount := amountMismatches.length,
        statusMismatchCount := statusMismatches.length } }

/-- Which of the two upload slots a file goes to. -/
inductive Side where
  | internal : Side
  | provider : Side
deriving DecidableEq, Repr

/-- The opposite upload slot. -/
def Side.other : Side → Side
  | .internal => .provider
  | .provider => .internal

/-- The component state of ReconciliationTool (the useState hooks). -/
structure ComponentState where
  internalFile : Option String
  providerFile : Option String
  internalData : List NormalizedRecord
  providerData : List NormalizedRecord
  reconciliationResults : Option ReconciliationResult
  isProcessing : Bool
  showResults : Bool
  uploadErrorInternal : Option String
  uploadErrorProvider : Option String
deriving DecidableEq, Repr

/-- Functional update of the per-side upload error, as done by the
setUploadErrors state setter. -/
def setUploadError (st : ComponentState) (side : Side) (e : Option String) : ComponentState :=
  match side with
  | .internal => { st with uploadErrorInternal := e }
  | .provider => { st with uploadErrorProvider := e }

/-- The upload error of one side. -/
def sideError (st : ComponentState) : Side → Option String
  | .internal => st.uploadErrorInternal
  | .provider => st.uploadErrorProvider

/-- The stored data of one side. -/
def sideData (st : ComponentState) : Side → List NormalizedRecord
  | .internal => st.internalData
  | .provider => st.providerData

/-- The stored file of one side. -/
def sideFile (st : ComponentState) : Side → Option String
  | .internal => st.internalFile
  | .provider => st.providerFile

/-- The meta object of a Papa.parse result. -/
structure ParseMeta where
  fields : List String
deriving DecidableEq, Repr

/-- A Papa.parse result: error messages, header metadata, and parsed rows. -/
structure ParseResult where
  errors : List String
  meta : ParseMeta
  data : List RawRow
deriving DecidableEq, Repr

/-- handleFileUpload with its parse callback inlined: a missing file returns
unchanged; otherwise the side's error is cleared, then either a parse error
or a missing-required-column error is stored, or the processed rows replace
the side's data. -/
def handleFileUpload (st : ComponentState) (file : Option String) (side : Side)
    (results : ParseResult) : ComponentState :=
  match file with
  | none => st
  | some f =>
    let st1 := setUploadError st side none
    match results.errors with
    | e :: _ => setUploadError st1 side (some (("CSV parsing error: ") ++ e))
    | [] =>
      let requiredColumns := [("transaction_reference")]
      let headers := results.meta.fields
      let missingColumns := requiredColumns.filter (fun c => ! headers.contains c)
      if missingColumns.length > 0 then
        setUploadError st1 side
          (some (("Missing required columns: ") ++ String.intercalate (", ") missingColumns))
      else
        let processedData := processRows results.data
        match side with
        | .internal => { st1 with internalData := processedData, internalFile := some f }
        | .provider => { st1 with providerData := processedData, providerFile := some f }

/-- performReconciliation with the timer-driven UI updates flattened to the
final state once the run completes: the empty-input guard returns the state
unchanged; otherwise the results are replaced wholesale, isProcessing ends
false and showResults ends true. -/
def performReconciliation (st : ComponentState) : ComponentState :=
  if st.internalData.length = 0 ∨ st.providerData.length = 0 then st
  else
    { st with
      reconciliationResults := some (reconcile st.internalData st.providerData),
      isProcessing := false,
      showResults := true }

/-- Claim-side predicate following the words of the spec: a raw cell value is
"present" when it is non-null and non-empty. -/
def presentSpec : RawVal → Bool
  | .vnull => false
  | .vstr s => decide (s ≠ (""))
  | .vnum _ => true

/-- The last record in a list carrying a given reference, if any. -/
def lastWith (records : List NormalizedRecord) (k : String) : Option NormalizedRecord :=
  (records.filter (fun r => decide (r.transaction_reference = k))).getLast?

/-- Option fallback: the left value when present, otherwise the right. -/
def optOr {α : Type _} : Option α → Option α → Option α
  | some x, _ => some x
  | none, b => b

/-- A compact record constructor for concrete instances. -/
def sampleRec (ref : String) (a : Option JNum) (s : Option String) : NormalizedRecord :=
  { transaction_reference := ref, amount := a, status := s, extra := [] }

end Reconciliation

namespace Reconciliation

/-! ### Lookup-map lemmas: the JS Map built by forEach/set realises
last-write-wins semantics. -/

theorem find?_replace_self (k : String) (v : NormalizedRecord) :
    ∀ (m : RecMap), m.any (fun p => decide (p.1 = k)) = true →
      (m.map (fun p => if p.1 = k then (k, v) else p)).find? (fun p => decide (p.1 = k))
        = some (k, v) := by
  intro m
  induction m with
  | nil => intro h; simp at h
  | cons p m ih =>
    intro h
    by_cases hp : p.1 = k
    · rw [List.map_cons, if_pos hp]
      exact List.find?_cons_of_pos _ (by simp)
    · rw [List.map_cons, if_neg hp, List.find?_cons_of_neg _ (by simp [hp])]
      apply ih
      simpa [hp] using h

theorem find?_replace_ne (k k2 : String) (v : NormalizedRecord) (h : k ≠ k2) :
    ∀ (m : RecMap),
      (m.map (fun p => if p.1 = k then (k, v) else p)).find? (fun p => decide (p.1 = k2))
        = m.find? (fun p => decide (p.1 = k2)) := by
  intro m
  induction m with
  | nil => rfl
  | cons p m ih =>
    by_cases hp : p.1 = k
    · rw [List.map_cons, if_pos hp, List.find?_cons_of_neg _ (by simp [h]),
        List.find?_cons_of_neg _ (by simp [hp, h])]
      exact ih
    · rw [List.map_cons, if_neg hp]
      by_cases hq : p.1 = k2
      · rw [List.find?_cons_of_pos _ (by simp [hq]), List.find?_cons_of_pos _ (by simp [hq])]
      · rw [List.find?_cons_of_neg _ (by simp [hq]), List.find?_cons_of_neg _ (by simp [hq])]
        exact ih

theorem mapGet_mapSet_self (m : RecMap) (k : String) (v : NormalizedRecord) :
    mapGet (mapSet m k v) k = some v := by
  unfold mapSet mapGet
  by_cases h : m.any (fun p => decide (p.1 = k)) = true
  · rw [if_pos h, find?_replace_self k v m h]
    rfl
  · rw [if_neg h]
    have hnone : m.find? (fun p => decide (p.1 = k)) = none := by
      rw [List.find?_eq_none]
      intro x hx hpx
      exact h (List.any_eq_true.mpr ⟨x, hx, hpx⟩)
    rw [List.find?_append, hnone, Option.none_or, List.find?_cons_of_pos _ (by simp)]
    rfl

theorem mapGet_mapSet_ne (m : RecMap) (k k2 : String) (v : NormalizedRecord)
    (h : k ≠ k2) : mapGet (mapSet m k v) k2 = mapGet m k2 := by
  unfold mapSet mapGet
  by_cases hm : m.any (fun p => decide (p.1 = k)) = true
  · rw [if_pos hm, find?_replace_ne k k2 v h m]
  · have hsingle : List.find? (fun p => decide (p.1 = k2)) [(k, v)] = none := by
      rw [List.find?_cons_of_neg _ (by simp [h])]
      rfl
    rw [if_neg hm, List.find?_append, hsingle, Option.or_none]

theorem optOr_none_right {α : Type _} (a : Option α) : optOr a none = a := by
  cases a <;> rfl

theorem getLast?_cons_optOr {α : Type _} (a : α) (l : List α) :
    (a :: l).getLast? = optOr l.getLast? (some a) := by
  cases l with
  | nil => rfl
  | cons b t =>
    rw [List.getLast?_cons_cons]
    cases h : (b :: t).getLast? with
    | none => simp at h
    | some x => rfl

theorem mapGet_foldl (rs : List NormalizedRecord) :
    ∀ (m : RecMap) (k : String),
      mapGet (rs.foldl (fun acc r => mapSet acc r.transaction_reference r) m) k
        = optOr ((rs.filter (fun r => decide (r.transaction_reference = k))).getLast?)
            (mapGet m k) := by
  induction rs with
  | nil => intro m k; rfl
  | cons r rest ih =>
    intro m k
    rw [List.foldl_cons, ih]
    by_cases hr : r.transaction_reference = k
    · rw [List.filter_cons_of_pos (by simp [hr]), getLast?_cons_optOr, hr,
        mapGet_mapSet_self]
      cases (rest.filter (fun q => decide (q.transaction_reference = k))).getLast? <;>
        simp [optOr]
    · rw [List.filter_cons_of_neg (by simp [hr]), mapGet_mapSet_ne m _ k r hr]

/-- The provider/internal lookup maps realise last-write-wins: looking up a
key returns the last record of the input that carries it. -/
theorem mapGet_buildMap (rs : List NormalizedRecord) (k : String) :
    mapGet (buildMap rs) k = lastWith rs k := by
  unfold buildMap lastWith
  rw [mapGet_foldl]
  have hnil : mapGet [] k = none := rfl
  rw [hnil, optOr_none_right]

theorem mapHas_eq_isSome (m : RecMap) (k : String) :
    mapHas m k = (mapGet m k).isSome := by
  unfold mapHas mapGet
  rw [Option.isSome_map', Bool.eq_iff_iff]
  simp [List.any_eq_true, List.find?_isSome]

/-! ### Classification lemmas -/

theorem classifyInternal_fst (pmap : RecMap) (rs : List NormalizedRecord) :
    (classifyInternal pmap rs).1
      = rs.filterMap
          (fun r => (mapGet pmap r.transaction_reference).map (fun p => mkMatchResult r p)) := by
  induction rs with
  | nil => rfl
  | cons r rest ih =>
    rw [List.filterMap_cons]
    cases h : mapGet pmap r.transaction_reference with
    | none => simpa [classifyInternal, h] using ih
    | some p => simpa [classifyInternal, h] using ih

theorem classifyInternal_snd (pmap : RecMap) (rs : List NormalizedRecord) :
    (classifyInternal pmap rs).2
      = rs.filter (fun r => ! (mapGet pmap r.transaction_reference).isSome) := by
  induction rs with
  | nil => rfl
  | cons r rest ih =>
    cases h : mapGet pmap r.transaction_reference with
    | none => simpa [classifyInternal, h, List.filter_cons] using ih
    | some p => simpa [classifyInternal, h, List.filter_cons] using ih

theorem classifyInternal_length (pmap : RecMap) (rs : List NormalizedRecord) :
    (classifyInternal pmap rs).1.length + (classifyInternal pmap rs).2.length
      = rs.length := by
  induction rs with
  | nil => rfl
  | cons r rest ih =>
    cases h : mapGet pmap r.transaction_reference with
    | none =>
      simp only [classifyInternal, h, List.length_cons]
      omega
    | some p =>
      simp only [classifyInternal, h, List.length_cons]
      omega

theorem classifyInternal_fst_length (pmap : RecMap) (rs : List NormalizedRecord) :
    (classifyInternal pmap rs).1.length
      = rs.countP (fun r => (mapGet pmap r.transaction_reference).isSome) := by
  induction rs with
  | nil => rfl
  | cons r rest ih =>
    cases h : mapGet pmap r.transaction_reference with
    | none => simp [classifyInternal, h, List.countP_cons, ih]
    | some p => simp [classifyInternal, h, List.countP_cons, ih]

/-! ### Unfolding equations for the reconcile result -/

theorem reconcile_matched (internalData providerData : List NormalizedRecord) :
    (reconcile internalData providerData).matched
      = (classifyInternal (buildMap providerData) internalData).1 := rfl

theorem reconcile_internalOnly (internalData providerData : List NormalizedRecord) :
    (reconcile internalData providerData).internalOnly
      = (classifyInternal (buildMap providerData) internalData).2 := rfl

theorem reconcile_providerOnly (internalData providerData : List NormalizedRecord) :
    (reconcile internalData providerData).providerOnly
      = providerData.filter
          (fun r => ! mapHas (buildMap internalData) r.transaction_reference) := rfl

theorem reconcile_amountMismatches (internalData providerData : List NormalizedRecord) :
    (reconcile internalData providerData).amountMismatches
      = (reconcile internalData providerData).matched.filter (fun m => ! m.amountMatch) := rfl

theorem reconcile_statusMismatches (internalData providerData : List NormalizedRecord) :
    (reconcile internalData providerData).statusMismatches
      = (reconcile internalData providerData).matched.filter (fun m => ! m.statusMatch) := rfl

theorem reconcile_summary (internalData providerData : List NormalizedRecord) :
    (reconcile internalData providerData).summary
      = { totalInternal := internalData.length,
          totalProvider := providerData.length,
          matchedCount := (reconcile internalData providerData).matched.length,
          internalOnlyCount := (reconcile internalData providerData).internalOnly.length,
          providerOnlyCount := (reconcile internalData providerData).providerOnly.length,
          amountMismatchCount := (reconcile internalData providerData).amountMismatches.length,
          statusMismatchCount := (reconcile internalData providerData).statusMismatches.length } := rfl

/-- Every element of the matched list is the match result of its own two
sides. -/
theorem mem_matched_eq (internalData providerData : List NormalizedRecord)
    (m : MatchResult) (hm : m ∈ (reconcile internalData providerData).matched) :
    m = mkMatchResult m.internal m.provider := by
  rw [reconcile_matched, classifyInternal_fst] at hm
  rcases List.mem_filterMap.mp hm with ⟨r, _, hsome⟩
  cases hg : mapGet (buildMap providerData) r.transaction_reference with
  | none => rw [hg] at hsome; simp at hsome
  | some p =>
    rw [hg] at hsome
    simp only [Option.map_some'] at hsome
    obtain rfl := Option.some.inj hsome
    rfl

/-! ### Pointwise facts about the two comparison flags -/

theorem amountMatch_of_none (i p : NormalizedRecord)
    (h : i.amount = none ∨ p.amount = none) :
    (mkMatchResult i p).amountMatch = true := by
  rcases h with h | h
  · cases hp : p.amount <;> simp [mkMatchResult, h, hp]
  · cases hi : i.amount <;> simp [mkMatchResult, h, hi]

theorem amountMatch_of_nan (i p : NormalizedRecord)
    (h : i.amount = some JNum.nan ∨ p.amount = some JNum.nan) :
    (mkMatchResult i p).amountMatch = true := by
  rcases h with h | h
  · cases hp : p.amount with
    | none => simp [mkMatchResult, h, hp]
    | some b => cases b <;> simp [mkMatchResult, h, hp, JNum.sub, JNum.jabs, JNum.gtb]
  · cases hi : i.amount with
    | none => simp [mkMatchResult, h, hi]
    | some a => cases a <;> simp [mkMatchResult, h, hi, JNum.sub, JNum.jabs, JNum.gtb]

theorem amountMatch_of_rat (i p : NormalizedRecord) (a b : ℚ)
    (ha : i.amount = some (JNum.num a)) (hb : p.amount = some (JNum.num b)) :
    ((mkMatchResult i p).amountMatch = false ↔ |a - b| > 1 / 100) := by
  simp only [mkMatchResult, ha, hb, JNum.sub, JNum.jabs, JNum.gtb]
  simp [gt_iff_lt]

theorem statusMatch_of_falsy (i p : NormalizedRecord)
    (h : strTruthy i.status = false ∨ strTruthy p.status = false) :
    (mkMatchResult i p).statusMatch = true := by
  rcases h with h | h <;> simp [mkMatchResult, h]

/-! ### Whitespace and lowercasing lemmas (for the status normalization) -/

theorem toLower_of_whitespace (c : Char) (h : c.isWhitespace = true) :
    c.toLower = c := by
  simp only [Char.isWhitespace, Bool.or_eq_true, decide_eq_true_eq] at h
  rcases h with ((h | h) | h) | h <;> subst h <;> decide

theorem dropWhile_whitespace_eq_nil {l : List Char}
    (h : ∀ c ∈ l, Char.isWhitespace c = true) :
    l.dropWhile Char.isWhitespace = [] := by
  induction l with
  | nil => rfl
  | cons c t ih =>
    rw [List.dropWhile_cons, if_pos (h c (List.mem_cons_self c t))]
    exact ih (fun x hx => h x (List.mem_cons_of_mem c hx))

theorem jsTrim_eq_empty {s : String}
    (h : ∀ c ∈ s.toList, Char.isWhitespace c = true) :
    jsTrim s = ("") := by
  unfold jsTrim
  rw [dropWhile_whitespace_eq_nil h]
  rfl

theorem jsToLower_whitespace {s : String}
    (h : ∀ c ∈ s.toList, Char.isWhitespace c = true) :
    ∀ c ∈ (jsToLower s).toList, Char.isWhitespace c = true := by
  intro c hc
  have hc2 : c ∈ s.toList.map Char.toLower := hc
  rcases List.mem_map.mp hc2 with ⟨d, hd, rfl⟩
  rw [toLower_of_whitespace d (h d hd)]
  exact h d hd

/-! ### Counting lemmas (for the summary identities) -/

theorem countP_not_add {α : Type _} (p : α → Bool) (l : List α) :
    l.countP (fun a => ! p a) + l.countP p = l.length := by
  induction l with
  | nil => rfl
  | cons a t ih =>
    cases hpa : p a <;> simp [List.countP_cons, hpa] <;> omega

theorem countP_mem_comm {l₁ l₂ : List String} (h₁ : l₁.Nodup) (h₂ : l₂.Nodup) :
    l₁.countP (fun a => decide (a ∈ l₂)) = l₂.countP (fun a => decide (a ∈ l₁)) := by
  rw [List.countP_eq_length_filter, List.countP_eq_length_filter,
    ← List.toFinset_card_of_nodup (List.Nodup.filter _ h₁),
    ← List.toFinset_card_of_nodup (List.Nodup.filter _ h₂),
    List.toFinset_filter, List.toFinset_filter]
  congr 1
  ext a
  simp only [Finset.mem_filter, List.mem_toFinset, decide_eq_true_eq]
  tauto

theorem lastWith_isSome_iff (rs : List NormalizedRecord) (k : String) :
    (lastWith rs k).isSome = true
      ↔ k ∈ rs.map (fun r => r.transaction_reference) := by
  unfold lastWith
  rw [List.getLast?_isSome]
  constructor
  · intro hne
    cases hf : rs.filter (fun r => decide (r.transaction_reference = k)) with
    | nil => exact absurd hf hne
    | cons a t =>
      have ha : a ∈ rs.filter (fun r => decide (r.transaction_reference = k)) := by
        rw [hf]; exact List.mem_cons_self a t
      rcases List.mem_filter.mp ha with ⟨har, hak⟩
      exact List.mem_map.mpr ⟨a, har, by simpa using hak⟩
  · intro hk hE
    rcases List.mem_map.mp hk with ⟨r, hr, hrk⟩
    rw [List.filter_eq_nil_iff] at hE
    exact hE r hr (by simp [hrk])

theorem matchedCount_eq (internalData providerData : List NormalizedRecord) :
    (reconcile internalData providerData).summary.matchedCount
      = internalData.countP (fun r =>
          decide (r.transaction_reference
            ∈ providerData.map (fun q => q.transaction_reference))) := by
  show (classifyInternal (buildMap providerData) internalData).1.length = _
  rw [classifyInternal_fst_length]
  apply List.countP_congr
  intro r _
  simp [mapGet_buildMap, lastWith_isSome_iff]

theorem mapHas_buildMap (rs : List NormalizedRecord) (k : String) :
    mapHas (buildMap rs) k
      = decide (k ∈ rs.map (fun r => r.transaction_reference)) := by
  rw [mapHas_eq_isSome, mapGet_buildMap, Bool.eq_iff_iff, decide_eq_true_eq]
  exact lastWith_isSome_iff rs k

theorem providerOnlyCount_eq (internalData providerData : List NormalizedRecord) :
    (reconcile internalData providerData).summary.providerOnlyCount
      = providerData.countP (fun r =>
          ! decide (r.transaction_reference
            ∈ internalData.map (fun q => q.transaction_reference))) := by
  show (providerData.filter
      (fun r => ! mapHas (buildMap internalData) r.transaction_reference)).length = _
  rw [← List.countP_eq_length_filter]
  apply List.countP_congr
  intro r _
  rw [mapHas_buildMap]

/-! ### Fixtures for witnesses and counterexamples -/

def dupI1 : List NormalizedRecord := [sampleRec ("A") none none]

def dupP1 : List NormalizedRecord :=
  [sampleRec ("A") none none, sampleRec ("A") (some (JNum.num 5)) none]

def okI1 : List NormalizedRecord :=
  [sampleRec ("A") none none, sampleRec ("B") none none]

def okP1 : List NormalizedRecord :=
  [sampleRec ("B") none none, sampleRec ("C") none none]

/-! ### C1 -/

/-- C1 as stated is refuted by duplicate provider references: with internal
input [A] and provider input [A, A], matchedCount = 1 and
providerOnlyCount = 0, but totalProvider = 2. -/
theorem C1_counterexample :
    ¬ ((reconcile dupI1 dupP1).summary.matchedCount
        + (reconcile dupI1 dupP1).summary.providerOnlyCount
        = (reconcile dupI1 dupP1).summary.totalProvider) := by
  decide

/-- C1 (amended): for every pair of non-empty normalized input sequences in
which references are pairwise distinct within each side, the summary
satisfies matchedCount + providerOnlyCount = totalProvider. -/
theorem C1_sum_provider (internalData providerData : List NormalizedRecord)
    (hI : internalData ≠ []) (hP : providerData ≠ [])
    (hIn : (internalData.map (fun r => r.transaction_reference)).Nodup)
    (hPn : (providerData.map (fun r => r.transaction_reference)).Nodup) :
    (reconcile internalData providerData).summary.matchedCount
      + (reconcile internalData providerData).summary.providerOnlyCount
      = (reconcile internalData providerData).summary.totalProvider := by
  rw [matchedCount_eq, providerOnlyCount_eq]
  have h1 : (internalData.map (fun r => r.transaction_reference)).countP
      (fun a => decide (a ∈ providerData.map (fun q => q.transaction_reference)))
      = internalData.countP (fun r =>
          decide (r.transaction_reference
            ∈ providerData.map (fun q => q.transaction_reference))) := by
    rw [List.countP_map]
    rfl
  have h2 : (providerData.map (fun r => r.transaction_reference)).countP
      (fun a => ! decide (a ∈ internalData.map (fun q => q.transaction_reference)))
      = providerData.countP (fun r =>
          ! decide (r.transaction_reference
            ∈ internalData.map (fun q => q.transaction_reference))) := by
    rw [List.countP_map]
    rfl
  rw [← h1, ← h2]
  have hIn2 : (internalData.map (fun r => r.transaction_reference)).Nodup := hIn
  have hPn2 : (providerData.map (fun q => q.transaction_reference)).Nodup := hPn
  have hcomm := countP_mem_comm hIn2 hPn2
  have hsplit := countP_not_add
      (fun a => decide (a ∈ internalData.map (fun q => q.transaction_reference)))
      (providerData.map (fun r => r.transaction_reference))
  have hlen : (providerData.map (fun r => r.transaction_reference)).length
      = providerData.length := List.length_map _ _
  show _ + _ = providerData.length
  omega

/-- C1 witness: a concrete duplicate-free pair of inputs. -/
theorem C1_witness :
    okI1 ≠ [] ∧ okP1 ≠ []
    ∧ (reconcile okI1 okP1).summary.matchedCount
        + (reconcile okI1 okP1).summary.providerOnlyCount
        = (reconcile okI1 okP1).summary.totalProvider :=
  ⟨by decide, by decide,
    C1_sum_provider okI1 okP1 (by decide) (by decide) (by decide) (by decide)⟩

/-! ### C2 -/

def zeroAmountRow : RawRow :=
  { transaction_reference := RawVal.vstr ("A"), amount := RawVal.vnum (JNum.num 0),
    status := RawVal.vnull, extra := [] }

def goodAmountRow : RawRow :=
  { transaction_reference := RawVal.vstr ("A"), amount := RawVal.vstr ("12.5"),
    status := RawVal.vnull, extra := [] }

/-- C2 as stated is refuted by a numeric 0 amount cell: the raw value is
present (non-null, non-empty), yet the truthiness test `row.amount ?` makes
normalization store null instead of the parsed number 0. -/
theorem C2_counterexample :
    ¬ (presentSpec zeroAmountRow.amount = true →
        (normalizeRow zeroAmountRow).amount
          = some (parseFloat zeroAmountRow.amount)) := by
  decide

/-- C2 (amended): normalization stores the parsed number exactly when the raw
amount value is truthy (present and, when numeric, neither 0 nor NaN); it
stores null when the raw value is absent/empty or is the number 0 or NaN. -/
theorem C2_amount_normalization (row : RawRow) :
    ((presentSpec row.amount = true ∧ row.amount ≠ RawVal.vnum (JNum.num 0)
        ∧ row.amount ≠ RawVal.vnum JNum.nan) →
      (normalizeRow row).amount = some (parseFloat row.amount))
    ∧ ((presentSpec row.amount = false ∨ row.amount = RawVal.vnum (JNum.num 0)
        ∨ row.amount = RawVal.vnum JNum.nan) →
      (normalizeRow row).amount = none) := by
  constructor
  · rintro ⟨hpres, hz, hn⟩
    cases hv : row.amount with
    | vnull => rw [hv] at hpres; simp [presentSpec] at hpres
    | vstr s =>
      rw [hv] at hpres
      have hs : s ≠ ("") := by simpa [presentSpec] using hpres
      simp [normalizeRow, hv, RawVal.truthy, hs]
    | vnum n =>
      cases n with
      | num q =>
        have hq : q ≠ 0 := fun hq0 => hz (by rw [hv, hq0])
        simp [normalizeRow, hv, RawVal.truthy, hq]
      | nan => exact absurd hv hn
  · rintro (hpres | hz | hn)
    · cases hv : row.amount with
      | vnull => simp [normalizeRow, hv, RawVal.truthy]
      | vstr s =>
        rw [hv] at hpres
        have hs : s = ("") := by simpa [presentSpec] using hpres
        simp [normalizeRow, hv, RawVal.truthy, hs]
      | vnum n => rw [hv] at hpres; simp [presentSpec] at hpres
    · simp [normalizeRow, hz, RawVal.truthy]
    · simp [normalizeRow, hn, RawVal.truthy]

/-- C2 witness: a truthy string amount is parsed; the numeric 0 amount is
stored as null. -/
theorem C2_witness :
    (normalizeRow goodAmountRow).amount = some (parseFloat goodAmountRow.amount)
    ∧ (normalizeRow zeroAmountRow).amount = none :=
  ⟨(C2_amount_normalization goodAmountRow).1 ⟨by decide, by decide, by decide⟩,
    (C2_amount_normalization zeroAmountRow).2 (Or.inr (Or.inl rfl))⟩

/-! ### C3 -/

/-- C3: with duplicate reference keys in the input, each side's lookup map
retains only the last-seen record per key (last-write-wins), while the
classification loop still visits every internal record, so every internal
record whose reference occurs on the provider side — earlier duplicates
included — is matched against the same last-seen provider record. -/
theorem C3_last_write_wins (internalData providerData : List NormalizedRecord)
    (hdup : ¬ (internalData.map (fun r => r.transaction_reference)).Nodup) :
    (∀ k, mapGet (buildMap internalData) k = lastWith internalData k)
    ∧ (∀ k, mapGet (buildMap providerData) k = lastWith providerData k)
    ∧ (reconcile internalData providerData).matched
        = internalData.filterMap (fun r =>
            (lastWith providerData r.transaction_reference).map
              (fun p => mkMatchResult r p)) := by
  refine ⟨fun k => mapGet_buildMap internalData k,
    fun k => mapGet_buildMap providerData k, ?_⟩
  rw [reconcile_matched, classifyInternal_fst]
  simp only [mapGet_buildMap]

def dupI3 : List NormalizedRecord :=
  [sampleRec ("A") (some (JNum.num 1)) none, sampleRec ("A") (some (JNum.num 2)) none]

def dupP3 : List NormalizedRecord := [sampleRec ("A") (some (JNum.num 3)) none]

/-- C3 witness: internal input with reference A duplicated against a single
provider A record. -/
theorem C3_witness :
    ¬ (dupI3.map (fun r => r.transaction_reference)).Nodup
    ∧ (reconcile dupI3 dupP3).matched
        = dupI3.filterMap (fun r =>
            (lastWith dupP3 r.transaction_reference).map
              (fun p => mkMatchResult r p)) :=
  ⟨by decide, (C3_last_write_wins dupI3 dupP3 (by decide)).2.2⟩

/-! ### C4 -/

/-- C4: for every matched pair whose two amounts are (rational) numbers,
amountMatch is false exactly when the absolute difference exceeds 0.01
strictly. -/
theorem C4_amount_tolerance (internalData providerData : List NormalizedRecord)
    (m : MatchResult) (hm : m ∈ (reconcile internalData providerData).matched)
    (a b : ℚ) (ha : m.internal.amount = some (JNum.num a))
    (hb : m.provider.amount = some (JNum.num b)) :
    (m.amountMatch = false ↔ |a - b| > 1 / 100) := by
  rw [mem_matched_eq internalData providerData m hm]
  exact amountMatch_of_rat m.internal m.provider a b ha hb

def tolI4 : List NormalizedRecord :=
  [sampleRec ("A") (some (JNum.num 100)) none,
    sampleRec ("B") (some (JNum.num 100)) none]

def tolP4 : List NormalizedRecord :=
  [sampleRec ("A") (some (JNum.num (10001 / 100))) none,
    sampleRec ("B") (some (JNum.num (100 + 100001 / 10000000))) none]

def tolA4 : MatchResult :=
  mkMatchResult (sampleRec ("A") (some (JNum.num 100)) none)
    (sampleRec ("A") (some (JNum.num (10001 / 100))) none)

def tolB4 : MatchResult :=
  mkMatchResult (sampleRec ("B") (some (JNum.num 100)) none)
    (sampleRec ("B") (some (JNum.num (100 + 100001 / 10000000))) none)

/-- C4 witness: a difference of exactly 0.01 matches; a difference of
0.0100001 mismatches. -/
theorem C4_witness : tolA4.amountMatch = true ∧ tolB4.amountMatch = false := by
  have hmemA : tolA4 ∈ (reconcile tolI4 tolP4).matched :=
    List.mem_cons_self tolA4 [tolB4]
  have hmemB : tolB4 ∈ (reconcile tolI4 tolP4).matched :=
    List.mem_cons_of_mem tolA4 (List.mem_cons_self tolB4 [])
  constructor
  · have h := C4_amount_tolerance tolI4 tolP4 tolA4 hmemA 100 (10001 / 100) rfl rfl
    cases hA : tolA4.amountMatch with
    | true => rfl
    | false =>
      refine absurd (h.mp hA) ?_
      have hd : (100 : ℚ) - 10001 / 100 = -(1 / 100) := by norm_num
      rw [gt_iff_lt, hd, abs_neg, abs_of_nonneg (by norm_num : (0 : ℚ) ≤ 1 / 100)]
      norm_num
  · refine (C4_amount_tolerance tolI4 tolP4 tolB4 hmemB 100
      (100 + 100001 / 10000000) rfl rfl).mpr ?_
    have hd : (100 : ℚ) - (100 + 100001 / 10000000) = -(100001 / 10000000) := by
      norm_num
    rw [gt_iff_lt, hd, abs_neg,
      abs_of_nonneg (by norm_num : (0 : ℚ) ≤ 100001 / 10000000)]
    norm_num

/-! ### C5 -/

/-- C5: a matched pair with a NaN amount on either side is never flagged:
amountMatch stays true and the pair is absent from amountMismatches, because
the strict tolerance comparison against NaN is false. -/
theorem C5_nan_no_mismatch (internalData providerData : List NormalizedRecord)
    (m : MatchResult) (hm : m ∈ (reconcile internalData providerData).matched)
    (h : m.internal.amount = some JNum.nan ∨ m.provider.amount = some JNum.nan) :
    m.amountMatch = true
    ∧ m ∉ (reconcile internalData providerData).amountMismatches := by
  have hmatch : m.amountMatch = true := by
    rw [mem_matched_eq internalData providerData m hm]
    exact amountMatch_of_nan m.internal m.provider h
  refine ⟨hmatch, ?_⟩
  rw [reconcile_amountMismatches]
  intro hmem
  rcases List.mem_filter.mp hmem with ⟨_, hflag⟩
  rw [hmatch] at hflag
  simp at hflag

def nanRow5 : RawRow :=
  { transaction_reference := RawVal.vstr ("A"), amount := RawVal.vstr ("abc"),
    status := RawVal.vnull, extra := [] }

def nanI5 : List NormalizedRecord := [normalizeRow nanRow5]

def nanP5 : List NormalizedRecord := [sampleRec ("A") (some (JNum.num 5)) none]

def nanM5 : MatchResult :=
  mkMatchResult (normalizeRow nanRow5) (sampleRec ("A") (some (JNum.num 5)) none)

/-- C5 witness: an internal amount parsed from malformed text ("abc") is NaN
and never produces an amount mismatch. -/
theorem C5_witness :
    nanM5.amountMatch = true
    ∧ nanM5 ∉ (reconcile nanI5 nanP5).amountMismatches :=
  C5_nan_no_mismatch nanI5 nanP5 nanM5 (List.mem_cons_self nanM5 []) (Or.inl rfl)

/-! ### C6 -/

/-- C6: in a matched pair, a null amount on either side forces
amountMatch = true and a null status on either side forces
statusMatch = true, regardless of the other side. -/
theorem C6_null_no_mismatch (internalData providerData : List NormalizedRecord)
    (m : MatchResult) (hm : m ∈ (reconcile internalData providerData).matched) :
    ((m.internal.amount = none ∨ m.provider.amount = none) → m.amountMatch = true)
    ∧ ((m.internal.status = none ∨ m.provider.status = none) → m.statusMatch = true) := by
  constructor
  · intro h
    rw [mem_matched_eq internalData providerData m hm]
    exact amountMatch_of_none m.internal m.provider h
  · intro h
    rw [mem_matched_eq internalData providerData m hm]
    apply statusMatch_of_falsy
    rcases h with h | h
    · exact Or.inl (by rw [h]; rfl)
    · exact Or.inr (by rw [h]; rfl)

def nullI6 : List NormalizedRecord := [sampleRec ("A") none none]

def nullP6 : List NormalizedRecord :=
  [sampleRec ("A") (some (JNum.num 9)) (some ("paid"))]

def nullM6 : MatchResult :=
  mkMatchResult (sampleRec ("A") none none)
    (sampleRec ("A") (some (JNum.num 9)) (some ("paid")))

/-- C6 witness: null internal amount and status never flag against a
populated provider record. -/
theorem C6_witness : nullM6.amountMatch = true ∧ nullM6.statusMatch = true :=
  ⟨(C6_null_no_mismatch nullI6 nullP6 nullM6 (List.mem_cons_self nullM6 [])).1
      (Or.inl rfl),
    (C6_null_no_mismatch nullI6 nullP6 nullM6 (List.mem_cons_self nullM6 [])).2
      (Or.inl rfl)⟩

/-! ### C7 -/

/-- C7: for every pair of non-empty input sequences, matchedCount +
internalOnlyCount = totalInternal (the classification loop partitions the
internal records). -/
theorem C7_sum_internal (internalData providerData : List NormalizedRecord)
    (hI : internalData ≠ []) (hP : providerData ≠ []) :
    (reconcile internalData providerData).summary.matchedCount
      + (reconcile internalData providerData).summary.internalOnlyCount
      = (reconcile internalData providerData).summary.totalInternal :=
  classifyInternal_length (buildMap providerData) internalData

/-- C7 witness: holds even with duplicated references. -/
theorem C7_witness :
    dupP1 ≠ [] ∧ dupI1 ≠ []
    ∧ (reconcile dupP1 dupI1).summary.matchedCount
        + (reconcile dupP1 dupI1).summary.internalOnlyCount
        = (reconcile dupP1 dupI1).summary.totalInternal :=
  ⟨by decide, by decide, C7_sum_internal dupP1 dupI1 (by decide) (by decide)⟩

/-! ### C8 -/

/-- C8: if a successfully parsed file lacks the transaction_reference header,
the upload stores an error naming the missing column on that side, ingests no
records, and leaves the other side's data and error state — and the stored
results — unchanged. -/
theorem C8_missing_column (st : ComponentState) (f : String) (side : Side)
    (results : ParseResult) (herr : results.errors = [])
    (hmiss : ("transaction_reference") ∉ results.meta.fields) :
    sideError (handleFileUpload st (some f) side results) side
        = some ("Missing required columns: transaction_reference")
    ∧ sideData (handleFileUpload st (some f) side results) side = sideData st side
    ∧ sideFile (handleFileUpload st (some f) side results) side = sideFile st side
    ∧ sideData (handleFileUpload st (some f) side results) side.other
        = sideData st side.other
    ∧ sideError (handleFileUpload st (some f) side results) side.other
        = sideError st side.other
    ∧ (handleFileUpload st (some f) side results).reconciliationResults
        = st.reconciliationResults := by
  have hcontains : results.meta.fields.contains ("transaction_reference") = false := by
    simpa using hmiss
  have hfu : handleFileUpload st (some f) side results
      = setUploadError (setUploadError st side none) side
          (some ("Missing required columns: transaction_reference")) := by
    unfold handleFileUpload
    rw [herr]
    simp only [hcontains, Bool.not_false, List.filter_cons_of_pos, List.filter_nil]
    rw [if_pos (by decide)]
    rfl
  rw [hfu]
  cases side <;>
    simp [setUploadError, sideError, sideData, sideFile, Side.other]

def fullState8 : ComponentState :=
  { internalFile := none, providerFile := some ("p.csv"),
    internalData := [], providerData := [sampleRec ("A") none none],
    reconciliationResults := none, isProcessing := false, showResults := false,
    uploadErrorInternal := none, uploadErrorProvider := some ("old") }

def badResults8 : ParseResult :=
  { errors := [], meta := { fields := [("reference"), ("amount")] },
    data := [{ transaction_reference := RawVal.vstr ("A"), amount := RawVal.vnull,
               status := RawVal.vnull, extra := [] }] }

/-- C8 witness: uploading a file without a transaction_reference header to the
internal side reports the missing column and leaves everything else alone. -/
theorem C8_witness :
    sideError (handleFileUpload fullState8 (some ("i.csv")) Side.internal badResults8)
        Side.internal
      = some ("Missing required columns: transaction_reference")
    ∧ sideData (handleFileUpload fullState8 (some ("i.csv")) Side.internal badResults8)
        Side.internal = sideData fullState8 Side.internal
    ∧ sideData (handleFileUpload fullState8 (some ("i.csv")) Side.internal badResults8)
        Side.internal.other = sideData fullState8 Side.internal.other
    ∧ sideError (handleFileUpload fullState8 (some ("i.csv")) Side.internal badResults8)
        Side.internal.other = sideError fullState8 Side.internal.other := by
  have h := C8_missing_column fullState8 ("i.csv") Side.internal badResults8 rfl
    (by decide)
  exact ⟨h.1, h.2.1, h.2.2.2.1, h.2.2.2.2.1⟩

/-! ### C9 -/

/-- C9: performReconciliation with an empty internal or provider data list
returns immediately: the component state — results included — is unchanged. -/
theorem C9_empty_guard (st : ComponentState)
    (h : st.internalData = [] ∨ st.providerData = []) :
    performReconciliation st = st := by
  unfold performReconciliation
  rcases h with h | h
  · exact if_pos (Or.inl (by rw [h]; rfl))
  · exact if_pos (Or.inr (by rw [h]; rfl))

def emptyState9 : ComponentState :=
  { internalFile := none, providerFile := some ("p.csv"), internalData := [],
    providerData := [sampleRec ("A") none none],
    reconciliationResults := some (reconcile [sampleRec ("B") none none]
      [sampleRec ("B") none none]),
    isProcessing := false, showResults := true,
    uploadErrorInternal := none, uploadErrorProvider := none }

/-- C9 witness: a state with empty internal data and previously stored
results is left untouched. -/
theorem C9_witness : performReconciliation emptyState9 = emptyState9 :=
  C9_empty_guard emptyState9 (Or.inl rfl)

/-! ### C10 -/

/-- C10: a non-empty all-whitespace raw status normalizes to the empty string
(not null), and a matched pair with an empty-string status on either side
performs no status comparison: statusMatch stays true. -/
theorem C10_whitespace_status (row : RawRow) (s : String)
    (hrow : row.status = RawVal.vstr s) (hne : s ≠ (""))
    (hws : ∀ c ∈ s.toList, Char.isWhitespace c = true) :
    (normalizeRow row).status = some ("")
    ∧ ∀ (internalData providerData : List NormalizedRecord) (m : MatchResult),
        m ∈ (reconcile internalData providerData).matched →
        (m.internal.status = some ("") ∨ m.provider.status = some ("")) →
        m.statusMatch = true := by
  constructor
  · have htruthy : (RawVal.vstr s).truthy = true := by
      simp [RawVal.truthy, hne]
    have hlow : jsTrim (jsToLower ((RawVal.vstr s).jsString)) = ("") :=
      jsTrim_eq_empty (jsToLower_whitespace hws)
    simp [normalizeRow, hrow, htruthy, hlow]
  · intro internalData providerData m hm hstat
    rw [mem_matched_eq internalData providerData m hm]
    apply statusMatch_of_falsy
    rcases hstat with h | h
    · exact Or.inl (by rw [h]; rfl)
    · exact Or.inr (by rw [h]; rfl)

def wsRow10 : RawRow :=
  { transaction_reference := RawVal.vstr ("A"), amount := RawVal.vnull,
    status := RawVal.vstr ("  "), extra := [] }

def wsI10 : List NormalizedRecord := [normalizeRow wsRow10]

def wsP10 : List NormalizedRecord := [sampleRec ("A") none (some ("paid"))]

def wsM10 : MatchResult :=
  mkMatchResult (normalizeRow wsRow10) (sampleRec ("A") none (some ("paid")))

/-- C10 witness: a two-space status normalizes to the empty string and blocks
the status comparison against a "paid" provider status. -/
theorem C10_witness :
    (normalizeRow wsRow10).status = some ("") ∧ wsM10.statusMatch = true := by
  have h := C10_whitespace_status wsRow10 ("  ") rfl (by decide) (by decide)
  exact ⟨h.1, h.2 wsI10 wsP10 wsM10 (List.mem_cons_self wsM10 []) (Or.inl h.1)⟩

end Reconciliation
